import Mathlib

/-!
A shallow embedding of the limit order book matching engine from
`src/backend/orderbook.cpp`, `src/backend/order.hpp` and the price-level
header.  Machine integers (the C++ `uint64_t` quantities and `uint32_t`
level counts) are modelled as `Nat` with explicit wrap-around arithmetic
modulo `2 ^ 64` and `2 ^ 32`; prices (`int64_t` ticks) are modelled as
`Int`.  The C++ book stores raw pointers to order cells that are aliased
by the order index, the price levels and local variables; the model keeps
the order index (`OrderBook.orders`) as the single authoritative store and
the price levels hold order identifiers, with every pointer-mediated
mutation mirrored by an explicit index update.
-/

namespace OrderBookModel

/-- Modulus of the C++ `uint64_t` type (`Quantity`, `OrderId`). -/
def U64 : Nat := 2 ^ 64

/-- Modulus of the C++ `uint32_t` type (`PriceLevel::order_count`). -/
def U32 : Nat := 2 ^ 32

/-- Wrap-around subtraction `a - b` of `w`-bit unsigned values (for `a < w`
this is exactly `(a - b) mod w` in the two's-complement sense). -/
def wsub (w a b : Nat) : Nat := (a + (w - b % w)) % w

/-- Side of an order (`order.hpp`, `enum class Side`). -/
inductive Side : Type
  | buy
  | sell
deriving DecidableEq, Repr

/-- Order type (`order.hpp`, `enum class OrderType`). -/
inductive OrderType : Type
  | limit
  | market
  | ioc
  | fok
deriving DecidableEq, Repr

/-- Order status (`order.hpp`, `enum class OrderStatus`);
`partFilled` stands for `PARTIALLY_FILLED`. -/
inductive OrderStatus : Type
  | new
  | partFilled
  | filled
  | cancelled
  | rejected
deriving DecidableEq, Repr

/-- An order cell (`order.hpp`, `struct Order`).  The intrusive `next` and
`prev` sibling links are represented by the position of the order's id
inside its price level's `orders` list; the timestamp is advisory in the
source (FIFO position is authoritative) and is not modelled. -/
structure Order : Type where
  id : Nat
  price : Int
  quantity : Nat
  filledQuantity : Nat
  side : Side
  otype : OrderType
  status : OrderStatus
deriving DecidableEq, Repr

/-- C++ `Order::remaining_quantity`, `quantity - filled_quantity` on `uint64_t`. -/
def Order.remainingQuantity (o : Order) : Nat :=
  wsub U64 o.quantity o.filledQuantity

/-- C++ `Order::is_fully_filled`, `filled_quantity >= quantity`. -/
def Order.isFullyFilled (o : Order) : Bool :=
  o.quantity ≤ o.filledQuantity

/-- A trade record (`order.hpp`, `struct Trade`), timestamp omitted. -/
structure Trade : Type where
  buyOrderId : Nat
  sellOrderId : Nat
  price : Int
  quantity : Nat
deriving DecidableEq, Repr

/-- A price level (`price_level.hpp`, `class PriceLevel`): FIFO queue of
resting orders with cached aggregate quantity and order count.  The
doubly-linked order list is modelled as the list of order identifiers,
head first. -/
structure PriceLevel : Type where
  price : Int
  totalQuantity : Nat
  orderCount : Nat
  orders : List Nat
deriving DecidableEq, Repr

/-- Remove the first occurrence of an identifier from a level's id list
(the C++ splices the concrete node out of the doubly-linked list; an order
whose links are null and which is not in the list leaves the list
unchanged, exactly as the C++ pointer splice does for an unlinked cell). -/
def eraseId (k : Nat) : List Nat → List Nat
  | [] => []
  | x :: t => if x = k then t else x :: eraseId k t

/-- C++ `PriceLevel::add_order`: append at tail, bump aggregate and count. -/
def PriceLevel.addOrder (l : PriceLevel) (o : Order) : PriceLevel :=
  { l with
    orders := l.orders ++ [o.id]
    totalQuantity := (l.totalQuantity + o.remainingQuantity) % U64
    orderCount := (l.orderCount + 1) % U32 }

/-- C++ `PriceLevel::remove_order`: splice out, decrement aggregate by the
order's remaining quantity and decrement the count (both with the wrap
semantics of the unsigned C++ types). -/
def PriceLevel.removeOrder (l : PriceLevel) (o : Order) : PriceLevel :=
  { l with
    orders := eraseId o.id l.orders
    totalQuantity := wsub U64 l.totalQuantity o.remainingQuantity
    orderCount := wsub U32 l.orderCount 1 }

/-- C++ `PriceLevel::update_quantity`:
`total_quantity = total_quantity - old_remaining + order->remaining_quantity()`. -/
def PriceLevel.updateQuantity (l : PriceLevel) (o : Order) (oldRemaining : Nat) :
    PriceLevel :=
  { l with
    totalQuantity := (wsub U64 l.totalQuantity oldRemaining + o.remainingQuantity) % U64 }

/-- C++ `PriceLevel::is_empty`: `order_count == 0`. -/
def PriceLevel.isEmpty (l : PriceLevel) : Bool :=
  l.orderCount = 0

/-- C++ `PriceLevel::get_best_order`: the head of the FIFO, or null. -/
def PriceLevel.getBestOrder (l : PriceLevel) : Option Nat :=
  l.orders.head?

/-- Association-list lookup, modelling `std::map::find` and
`std::unordered_map::find`. -/
def alookup {α β : Type} [DecidableEq α] (k : α) : List (α × β) → Option β
  | [] => none
  | e :: t => if e.1 = k then some e.2 else alookup k t

/-- Remove the entry with the given key, modelling `erase`. -/
def aerase {α β : Type} [DecidableEq α] (k : α) : List (α × β) → List (α × β)
  | [] => []
  | e :: t => if e.1 = k then t else e :: aerase k t

/-- Replace the value stored under a key, modelling a write through a
found iterator or pointer. -/
def aset {α β : Type} [DecidableEq α] (k : α) (v : β) : List (α × β) →
    List (α × β)
  | [] => []
  | e :: t => if e.1 = k then (k, v) :: aset k v t else e :: aset k v t

/-- Insert a new key into a price-ascending list, modelling insertion into
the ask-side `std::map<Price, PriceLevel*, std::less<Price>>`. -/
def insertAsc (p : Int) (lvl : PriceLevel) : List (Int × PriceLevel) →
    List (Int × PriceLevel)
  | [] => [(p, lvl)]
  | e :: t => if p < e.1 then (p, lvl) :: e :: t else e :: insertAsc p lvl t

/-- Insert a new key into a price-descending list, modelling insertion into
the bid-side `std::map<Price, PriceLevel*, std::greater<Price>>`. -/
def insertDesc (p : Int) (lvl : PriceLevel) : List (Int × PriceLevel) →
    List (Int × PriceLevel)
  | [] => [(p, lvl)]
  | e :: t => if e.1 < p then (p, lvl) :: e :: t else e :: insertDesc p lvl t

/-- The order-book state (`orderbook.hpp`, `class OrderBook`).  The bid
levels are kept sorted descending by price and the ask levels ascending,
so that the head of each list is the side's top of book, as for the two
`std::map`s of the source.  `trades` records the trade events emitted by
`notify_trade` in order; the floating-point rolling statistics
(`cumulative_volume_`, `cumulative_pq_`, recent-trade vectors) are not
needed by any claim and are not modelled. -/
structure OrderBook : Type where
  bidLevels : List (Int × PriceLevel)
  askLevels : List (Int × PriceLevel)
  orders : List (Nat × Order)
  nextOrderId : Nat
  trades : List Trade
deriving DecidableEq, Repr

/-- The freshly constructed book (`OrderBook::OrderBook`, with the
session counter `next_order_id` starting at 1). -/
def emptyBook : OrderBook :=
  { bidLevels := [], askLevels := [], orders := [], nextOrderId := 1, trades := [] }

/-- C++ `OrderBook::get_or_create_level`: return the level stored under
the price on the requested side, allocating and inserting a fresh empty
level when absent.  Returns the level together with the (possibly
extended) book. -/
def OrderBook.getOrCreateLevel (s : OrderBook) (p : Int) (side : Side) :
    PriceLevel × OrderBook :=
  match side with
  | .buy =>
    match alookup p s.bidLevels with
    | some lvl => (lvl, s)
    | none =>
      let lvl : PriceLevel := { price := p, totalQuantity := 0, orderCount := 0, orders := [] }
      (lvl, { s with bidLevels := insertDesc p lvl s.bidLevels })
  | .sell =>
    match alookup p s.askLevels with
    | some lvl => (lvl, s)
    | none =>
      let lvl : PriceLevel := { price := p, totalQuantity := 0, orderCount := 0, orders := [] }
      (lvl, { s with askLevels := insertAsc p lvl s.askLevels })

/-- Write back a mutated level under its key (in the C++ the level is
mutated in place through the pointer held by the map). -/
def OrderBook.setLevel (s : OrderBook) (p : Int) (side : Side) (lvl : PriceLevel) :
    OrderBook :=
  match side with
  | .buy => { s with bidLevels := aset p lvl s.bidLevels }
  | .sell => { s with askLevels := aset p lvl s.askLevels }

/-- C++ `OrderBook::remove_level_if_empty`: erase and deallocate the level
at the price if it exists and its `order_count` is zero. -/
def OrderBook.removeLevelIfEmpty (s : OrderBook) (p : Int) (side : Side) : OrderBook :=
  match side with
  | .buy =>
    match alookup p s.bidLevels with
    | some lvl => if lvl.isEmpty then { s with bidLevels := aerase p s.bidLevels } else s
    | none => s
  | .sell =>
    match alookup p s.askLevels with
    | some lvl => if lvl.isEmpty then { s with askLevels := aerase p s.askLevels } else s
    | none => s

/-- C++ `OrderBook::execute_trade`: advance the fill of both orders, set
their statuses, adjust the passive side's level aggregate, emit the trade
record, and unlink the passive order (dropping its level if now empty)
when it is fully filled.  The two mutated cells are written back to the
order index, which aliases them in the C++; the updated passive and
aggressive orders are also returned, mirroring the pointers the caller
keeps. -/
def OrderBook.executeTrade (s : OrderBook) (passive aggressive : Order)
    (quantity : Nat) : OrderBook × Order × Order :=
  let passiveOldRemaining := passive.remainingQuantity
  let passive := { passive with filledQuantity := (passive.filledQuantity + quantity) % U64 }
  let aggressive :=
    { aggressive with filledQuantity := (aggressive.filledQuantity + quantity) % U64 }
  let passive :=
    { passive with status := if passive.isFullyFilled then .filled else .partFilled }
  let aggressive :=
    { aggressive with status := if aggressive.isFullyFilled then .filled else .partFilled }
  let (lvl, s) := s.getOrCreateLevel passive.price passive.side
  let lvl := lvl.updateQuantity passive passiveOldRemaining
  let trade : Trade :=
    { buyOrderId := if passive.side = .buy then passive.id else aggressive.id
      sellOrderId := if passive.side = .sell then passive.id else aggressive.id
      price := passive.price
      quantity := quantity }
  let s := { s with trades := s.trades ++ [trade] }
  let s := { s with orders := aset aggressive.id aggressive (aset passive.id passive s.orders) }
  if passive.isFullyFilled then
    let lvl := lvl.removeOrder passive
    let s := s.setLevel passive.price passive.side lvl
    (s.removeLevelIfEmpty passive.price passive.side, passive, aggressive)
  else
    (s.setLevel passive.price passive.side lvl, passive, aggressive)

/-- Result of one iteration of the `OrderBook::match_order` while-loop:
either the loop exits (`stop`) or it proceeds to the next iteration
(`next`), in both cases carrying the updated book and incoming order. -/
inductive MatchStepResult : Type
  | stop (s : OrderBook) (incoming : Order)
  | next (s : OrderBook) (incoming : Order)
deriving DecidableEq, Repr

/-- One iteration of the matching loop of `OrderBook::match_order`,
including the loop guard: stop when the incoming order is fully filled or
the opposite side is empty, stop when the incoming price no longer crosses
the best opposite level (equality crosses), otherwise trade the head of
the best opposite level for `min(incoming.remaining, passive.remaining)`
and apply the IOC/FOK early-exit checks. -/
def OrderBook.matchStep (s : OrderBook) (incoming : Order) : MatchStepResult :=
  if incoming.isFullyFilled then .stop s incoming
  else
    match incoming.side with
    | .buy =>
      match s.askLevels with
      | [] => .stop s incoming
      | (_, bestAskLevel) :: _ =>
        if incoming.price < bestAskLevel.price then .stop s incoming
        else
          match bestAskLevel.getBestOrder with
          | none => .stop s incoming
          | some passiveId =>
            match alookup passiveId s.orders with
            | none => .stop s incoming
            | some passiveOrder =>
              let matchQuantity :=
                min incoming.remainingQuantity passiveOrder.remainingQuantity
              let (s, _, incoming) := s.executeTrade passiveOrder incoming matchQuantity
              if incoming.otype = .ioc ∧ ¬ incoming.isFullyFilled then
                let incoming := { incoming with status := .cancelled }
                .stop { s with orders := aset incoming.id incoming s.orders } incoming
              else if incoming.otype = .fok ∧ ¬ incoming.isFullyFilled then
                let incoming := { incoming with status := .rejected }
                .stop { s with orders := aset incoming.id incoming s.orders } incoming
              else .next s incoming
    | .sell =>
      match s.bidLevels with
      | [] => .stop s incoming
      | (_, bestBidLevel) :: _ =>
        if bestBidLevel.price < incoming.price then .stop s incoming
        else
          match bestBidLevel.getBestOrder with
          | none => .stop s incoming
          | some passiveId =>
            match alookup passiveId s.orders with
            | none => .stop s incoming
            | some passiveOrder =>
              let matchQuantity :=
                min incoming.remainingQuantity passiveOrder.remainingQuantity
              let (s, _, incoming) := s.executeTrade passiveOrder incoming matchQuantity
              if incoming.otype = .ioc ∧ ¬ incoming.isFullyFilled then
                let incoming := { incoming with status := .cancelled }
                .stop { s with orders := aset incoming.id incoming s.orders } incoming
              else if incoming.otype = .fok ∧ ¬ incoming.isFullyFilled then
                let incoming := { incoming with status := .rejected }
                .stop { s with orders := aset incoming.id incoming s.orders } incoming
              else .next s incoming

/-- The matching loop of `OrderBook::match_order` as iterated `matchStep`.
The fuel only bounds the number of iterations; every continuing iteration
removes a fully filled passive order from the opposite side, so any fuel
exceeding the number of resting opposite orders reproduces the C++ loop. -/
def OrderBook.matchLoop : Nat → OrderBook → Order → OrderBook × Order
  | 0, s, incoming => (s, incoming)
  | fuel + 1, s, incoming =>
    match s.matchStep incoming with
    | .stop s incoming => (s, incoming)
    | .next s incoming => OrderBook.matchLoop fuel s incoming

/-- Total number of resting orders recorded on one side's levels, used to
bound the matching loop's iteration count. -/
def restingOrderCount (m : List (Int × PriceLevel)) : Nat :=
  (m.map fun e => e.2.orders.length).sum

/-- C++ `OrderBook::add_order`: assign the next identifier, allocate the
cell and insert it into the order index, overwrite a market order's price
with the best opposite price when one exists, run the matching loop, then
rest an unfilled limit order or erase a cancelled/rejected one.  (The C++
stores the cell pointer in the index before overwriting the market price;
since the index aliases the cell and nothing reads the index in between,
inserting the overwritten order is equivalent.) -/
def OrderBook.addOrder (s : OrderBook) (price : Int) (quantity : Nat)
    (side : Side) (otype : OrderType) : Nat × OrderBook :=
  let id := s.nextOrderId
  let order : Order :=
    { id := id, price := price, quantity := quantity, filledQuantity := 0
      side := side, otype := otype, status := .new }
  let order :=
    if otype = .market then
      match side, s.askLevels, s.bidLevels with
      | .buy, (bestAsk, _) :: _, _ => { order with price := bestAsk }
      | .sell, _, (bestBid, _) :: _ => { order with price := bestBid }
      | _, _, _ => order
    else order
  let s := { s with nextOrderId := id + 1, orders := (id, order) :: s.orders }
  let fuel :=
    match side with
    | .buy => restingOrderCount s.askLevels + 1
    | .sell => restingOrderCount s.bidLevels + 1
  let (s, order) := s.matchLoop fuel order
  if ¬ order.isFullyFilled = true ∧ order.status ≠ .cancelled ∧
      order.status ≠ .rejected ∧ otype = .limit then
    let (lvl, s) := s.getOrCreateLevel price side
    let lvl := lvl.addOrder order
    (id, s.setLevel price side lvl)
  else if order.status = .cancelled ∨ order.status = .rejected then
    (id, { s with orders := aerase id s.orders })
  else
    (id, s)

/-- C++ `OrderBook::cancel_order`: look the identifier up in the index;
if absent return false; if the order is not fully filled, unlink it from
the level obtained by `get_or_create_level(order->price, order->side)` and
drop that level if now empty; finally mark it cancelled, erase it from the
index and deallocate. -/
def OrderBook.cancelOrder (s : OrderBook) (orderId : Nat) : Bool × OrderBook :=
  match alookup orderId s.orders with
  | none => (false, s)
  | some order =>
    let s :=
      if ¬ order.isFullyFilled = true then
        let (lvl, s) := s.getOrCreateLevel order.price order.side
        let lvl := lvl.removeOrder order
        let s := s.setLevel order.price order.side lvl
        s.removeLevelIfEmpty order.price order.side
      else s
    let order := { order with status := .cancelled }
    let s := { s with orders := aset order.id order s.orders }
    (true, { s with orders := aerase orderId s.orders })

/-- C++ `OrderBook::modify_order`: cancel-and-replace. -/
def OrderBook.modifyOrder (s : OrderBook) (orderId : Nat) (newPrice : Int)
    (newQuantity : Nat) : Bool × OrderBook :=
  match alookup orderId s.orders with
  | none => (false, s)
  | some oldOrder =>
    let s := (s.cancelOrder orderId).2
    let s := (s.addOrder newPrice newQuantity oldOrder.side oldOrder.otype).2
    (true, s)

/-- C++ `OrderBook::get_best_bid`: first key of the descending bid map. -/
def OrderBook.getBestBid (s : OrderBook) : Option Int :=
  s.bidLevels.head?.map fun e => e.1

/-- C++ `OrderBook::get_best_ask`: first key of the ascending ask map. -/
def OrderBook.getBestAsk (s : OrderBook) : Option Int :=
  s.askLevels.head?.map fun e => e.1

/-- C++ `OrderBook::get_mid_price`: `(*bid + *ask) / 2` on `int64_t`, i.e.
division truncating toward zero. -/
def OrderBook.getMidPrice (s : OrderBook) : Option Int :=
  match s.getBestBid, s.getBestAsk with
  | some bid, some ask => some (Int.tdiv (bid + ask) 2)
  | _, _ => none

/-- C++ `OrderBook::get_spread`: `*ask - *bid` when both sides are quoted. -/
def OrderBook.getSpread (s : OrderBook) : Option Int :=
  match s.getBestBid, s.getBestAsk with
  | some bid, some ask => some (ask - bid)
  | _, _ => none

/-- C++ `OrderBook::get_volume_at_price`: the level's aggregate quantity
when a level exists at the price on the side, and 0 otherwise. -/
def OrderBook.getVolumeAtPrice (s : OrderBook) (price : Int) (side : Side) : Nat :=
  match side with
  | .buy =>
    match alookup price s.bidLevels with
    | some lvl => lvl.totalQuantity
    | none => 0
  | .sell =>
    match alookup price s.askLevels with
    | some lvl => lvl.totalQuantity
    | none => 0

/-- The fields of the C++ `MarketState` snapshot with integer or exact
rational semantics (`orderbook.hpp`).  The C++ `mid_price` is a `double`
computed as `(bid + ask) / 2.0`; it is modelled as the exact rational,
which agrees with the source on the claim-relevant branch (the literal
`0.0` written when a side is empty).  Depth vectors, flow imbalance, VWAP,
volatility and timestamps are not needed by any claim. -/
structure MarketState : Type where
  bestBid : Int
  bestAsk : Int
  bidQuantity : Nat
  askQuantity : Nat
  spread : Int
  midPrice : ℚ
deriving DecidableEq, Repr

/-- C++ `OrderBook::get_market_state`: best prices default to 0 via
`value_or(0)`; spread and mid are computed only when both sides are
quoted and are the literal 0 otherwise; the top-of-book quantities are
taken from the first level of each side, 0 when the side is empty. -/
def OrderBook.getMarketState (s : OrderBook) : MarketState :=
  let bestBid := s.getBestBid
  let bestAsk := s.getBestAsk
  { bestBid := bestBid.getD 0
    bestAsk := bestAsk.getD 0
    bidQuantity :=
      match s.bidLevels.head? with
      | some e => e.2.totalQuantity
      | none => 0
    askQuantity :=
      match s.askLevels.head? with
      | some e => e.2.totalQuantity
      | none => 0
    spread :=
      match bestBid, bestAsk with
      | some bid, some ask => ask - bid
      | _, _ => 0
    midPrice :=
      match bestBid, bestAsk with
      | some bid, some ask => ((bid : ℚ) + (ask : ℚ)) / 2
      | _, _ => 0 }

/-- The price levels of one book side. -/
@[reducible]
def sideLevels (s : OrderBook) : Side → List (Int × PriceLevel)
  | .buy => s.bidLevels
  | .sell => s.askLevels

/-- Top of the opposite book side, the level the matching loop trades
against. -/
@[reducible]
def oppTop (s : OrderBook) : Side → Option (Int × PriceLevel)
  | .buy => s.askLevels.head?
  | .sell => s.bidLevels.head?

/-- The opposite side. -/
def oppSide : Side → Side
  | .buy => .sell
  | .sell => .buy

/-- The crossing condition of the matching loop: a buy crosses a level
priced at or below its price, a sell crosses a level priced at or above
its price (the loop breaks on the strict opposite comparison, so equality
crosses). -/
@[reducible]
def priceCrosses (side : Side) (incomingPrice lvlPrice : Int) : Prop :=
  match side with
  | .buy => lvlPrice ≤ incomingPrice
  | .sell => incomingPrice ≤ lvlPrice

/-- A limit price that does not cross the opposite side's top of book, so
that submitting it triggers no trade. -/
@[reducible]
def doesNotCross (s : OrderBook) (p : Int) : Side → Bool
  | .buy => s.askLevels.head?.all fun e => p < e.2.price
  | .sell => s.bidLevels.head?.all fun e => e.2.price < p

/-- Structural well-formedness of one side's level list that the engine
maintains: distinct price keys, no empty level, and counters inside their
machine-integer ranges; `fresh` is an order identifier not yet linked
anywhere (the next session identifier). -/
@[reducible]
def LevelsWF (fresh : Nat) (m : List (Int × PriceLevel)) : Prop :=
  (m.map Prod.fst).Nodup ∧
  ∀ e ∈ m, e.2.orderCount ≠ 0 ∧ e.2.orderCount < U32 ∧
    e.2.totalQuantity < U64 ∧ fresh ∉ e.2.orders

/-- Book well-formedness needed for the submit/cancel round trip: the next
identifier is genuinely fresh and both sides are structurally sound. -/
@[reducible]
def RoundTripWF (s : OrderBook) : Prop :=
  alookup s.nextOrderId s.orders = none ∧
  LevelsWF s.nextOrderId s.bidLevels ∧
  LevelsWF s.nextOrderId s.askLevels

/-- The fresh limit-order cell that `add_order` allocates for a limit
submission: next session identifier, nothing filled, status New. -/
def freshLimitOrder (s : OrderBook) (p : Int) (q : Nat) (side : Side) : Order :=
  { id := s.nextOrderId, price := p, quantity := q, filledQuantity := 0
    side := side, otype := .limit, status := .new }

/-- The book in which a non-crossing limit submission has come to rest:
the session counter advanced, the order cell inserted into the index, and
the order linked at the tail of its (possibly freshly created) price
level.  `add_order` produces exactly this state when the matching loop
breaks immediately. -/
def restLimit (s : OrderBook) (p : Int) (q : Nat) (side : Side) : OrderBook :=
  let o : Order := freshLimitOrder s p q side
  let s' : OrderBook :=
    { s with
      nextOrderId := s.nextOrderId + 1
      orders := (s.nextOrderId, o) :: s.orders }
  let (lvl, s'') := s'.getOrCreateLevel p side
  s''.setLevel p side (lvl.addOrder o)

/-- The three mutating operations of `PriceLevel`
(`add_order`, `remove_order`, `update_quantity`). -/
inductive LevelOp : Type
  | add (o : Order)
  | remove (o : Order)
  | update (o : Order) (oldRemaining : Nat)

/-- Apply one `PriceLevel` operation. -/
def applyLevelOp (l : PriceLevel) : LevelOp → PriceLevel
  | .add o => l.addOrder o
  | .remove o => l.removeOrder o
  | .update o r => l.updateQuantity o r

/-- Run a sequence of `PriceLevel` operations. -/
def runLevelOps (l : PriceLevel) (ops : List LevelOp) : PriceLevel :=
  ops.foldl applyLevelOp l

/-- Identifiers added by a sequence of level operations, in submission
order. -/
def addedIds : List LevelOp → List Nat
  | [] => []
  | .add o :: t => o.id :: addedIds t
  | .remove _ :: t => addedIds t
  | .update _ _ :: t => addedIds t

/-- Well-used sequences of `PriceLevel` operations, exactly the discipline
of the call sites in `orderbook.cpp`: the ghost list `m` tracks the linked
orders in FIFO order together with their current remaining quantities;
`add` links a not-yet-linked order at the tail, `remove` unlinks a linked
order whose tracked remaining is its current remaining, and `update` is
invoked after a fill with the pre-fill remaining as `oldRemaining`.  The
side conditions keep the running aggregate below `2 ^ 64` and the count
below `2 ^ 32`, i.e. the `uint64_t`/`uint32_t` arithmetic never wraps. -/
inductive GoodOps : List (Nat × Nat) → List LevelOp → List (Nat × Nat) → Prop
  | nil (m : List (Nat × Nat)) : GoodOps m [] m
  | add (o : Order) (m mNew : List (Nat × Nat)) (ops : List LevelOp)
      (mFinal : List (Nat × Nat))
      (hfresh : o.id ∉ m.map Prod.fst)
      (hsum : (m.map Prod.snd).sum + o.remainingQuantity < U64)
      (hcount : m.length + 1 < U32)
      (hnew : mNew = m ++ [(o.id, o.remainingQuantity)])
      (hrest : GoodOps mNew ops mFinal) :
      GoodOps m (.add o :: ops) mFinal
  | remove (o : Order) (m m₁ m₂ mNew : List (Nat × Nat)) (ops : List LevelOp)
      (mFinal : List (Nat × Nat))
      (hsplit : m = m₁ ++ (o.id, o.remainingQuantity) :: m₂)
      (hfresh : o.id ∉ m₁.map Prod.fst)
      (hnew : mNew = m₁ ++ m₂)
      (hrest : GoodOps mNew ops mFinal) :
      GoodOps m (.remove o :: ops) mFinal
  | update (o : Order) (oldRemaining : Nat) (m m₁ m₂ mNew : List (Nat × Nat))
      (ops : List LevelOp) (mFinal : List (Nat × Nat))
      (hsplit : m = m₁ ++ (o.id, oldRemaining) :: m₂)
      (hfresh : o.id ∉ m₁.map Prod.fst)
      (hnew : mNew = m₁ ++ (o.id, o.remainingQuantity) :: m₂)
      (hsum : (mNew.map Prod.snd).sum < U64)
      (hrest : GoodOps mNew ops mFinal) :
      GoodOps m (.update o oldRemaining :: ops) mFinal

/-- The level tracks the ghost list: cached aggregate equals the tracked
remaining quantities' sum, cached count equals the number of linked
orders, and the FIFO holds exactly the tracked identifiers in order. -/
@[reducible]
def LevelSyncs (l : PriceLevel) (m : List (Nat × Nat)) : Prop :=
  l.totalQuantity = (m.map Prod.snd).sum ∧
  l.orderCount = m.length ∧
  l.orders = m.map Prod.fst

/-- Book after `submit(10005, 40, Sell, Limit)` on the fresh book
(identifier 1). -/
def bookAsk1 : OrderBook := (emptyBook.addOrder 10005 40 .sell .limit).2

/-- Book of scenario S5 of the specification: ask 10005×40 (id 1) and
ask 10010×30 (id 2). -/
def bookS5 : OrderBook := (bookAsk1.addOrder 10010 30 .sell .limit).2

/-- Scenario S5 continued with `submit(10010, 100, Buy, FOK)` (id 3),
whose full quantity (100) exceeds the crossable liquidity (70). -/
def bookS5AfterFok : OrderBook := (bookS5.addOrder 10010 100 .buy .fok).2

/-- Book after a market buy submitted into the fresh (empty) book
(identifier 1). -/
def bookIdleMarket : OrderBook := (emptyBook.addOrder 100 10 .buy .market).2

/-- Continuing `bookIdleMarket`: a sell limit 50×10 rests (id 2), then the
idle market order (id 1) is cancelled. -/
def bookAfterIdleCancel : OrderBook :=
  ((bookIdleMarket.addOrder 50 10 .sell .limit).2.cancelOrder 1).2

/-- Book with a resting bid at -5 and a resting ask at -2 (prices are
signed ticks). -/
def bookNegPrices : OrderBook :=
  ((emptyBook.addOrder (-5) 10 .buy .limit).2.addOrder (-2) 10 .sell .limit).2

/-- Book with bid 9995×100 and ask 10005×100 (scenario S1). -/
def bookS1 : OrderBook :=
  ((emptyBook.addOrder 9995 100 .buy .limit).2.addOrder 10005 100 .sell .limit).2

/-- The incoming buy order used to exercise one matching-loop iteration
against `bookS5`: a limit buy at exactly the best ask price 10005. -/
def incAtBestAsk : Order :=
  { id := 9, price := 10005, quantity := 50, filledQuantity := 0
    side := .buy, otype := .limit, status := .new }

/-- The passive order resting at the head of the best ask level of
`bookS5`. -/
def passiveAsk1 : Order :=
  { id := 1, price := 10005, quantity := 40, filledQuantity := 0
    side := .sell, otype := .limit, status := .new }

/-- The best ask level of `bookS5`. -/
def bestAskLevelS5 : PriceLevel :=
  { price := 10005, totalQuantity := 40, orderCount := 1, orders := [1] }

/-- A sell order of quantity 40, resting (witness data for the level
invariant). -/
def wOrder1 : Order :=
  { id := 1, price := 100, quantity := 40, filledQuantity := 0
    side := .sell, otype := .limit, status := .new }

/-- A second sell order of quantity 30 (witness data). -/
def wOrder2 : Order :=
  { id := 2, price := 100, quantity := 30, filledQuantity := 0
    side := .sell, otype := .limit, status := .new }

/-- The second witness order after a fill of 10 (remaining 20). -/
def wOrder2Filled : Order :=
  { id := 2, price := 100, quantity := 30, filledQuantity := 10
    side := .sell, otype := .limit, status := .partFilled }

/-- Witness operation sequence: link two orders, partially fill the
second, unlink the first. -/
def wLevelOps : List LevelOp :=
  [.add wOrder1, .add wOrder2, .update wOrder2Filled 30, .remove wOrder1]

/-! ## Arithmetic helper lemmas for the wrap-around machine integers -/

theorem wsub_eq_sub {w a b : Nat} (hb : b ≤ a) (ha : a < w) : wsub w a b = a - b := by
  unfold wsub
  rw [Nat.mod_eq_of_lt (lt_of_le_of_lt hb ha)]
  have h2 : a + (w - b) = (a - b) + w := by omega
  rw [h2, Nat.add_mod_right, Nat.mod_eq_of_lt (by omega)]

theorem wsub_add_cancel {w a q : Nat} (ha : a < w) (hq : q < w) :
    wsub w ((a + q) % w) q = a := by
  unfold wsub
  rw [Nat.mod_eq_of_lt hq, Nat.mod_add_mod]
  have h : a + q + (w - q) = a + w := by omega
  rw [h, Nat.add_mod_right, Nat.mod_eq_of_lt ha]

theorem wsub_zero {w q : Nat} (hq : q < w) : wsub w q 0 = q := by
  unfold wsub
  rw [Nat.zero_mod, Nat.sub_zero, Nat.add_mod_right, Nat.mod_eq_of_lt hq]

theorem remainingQuantity_of_unfilled {o : Order} (h0 : o.filledQuantity = 0)
    (hq : o.quantity < U64) : o.remainingQuantity = o.quantity := by
  unfold Order.remainingQuantity
  rw [h0]
  exact wsub_zero hq

/-! ## Association-list helper lemmas -/

theorem alookup_none_of_not_mem {α β : Type} [DecidableEq α] {k : α}
    {m : List (α × β)} (h : k ∉ m.map Prod.fst) : alookup k m = none := by
  induction m with
  | nil => rfl
  | cons e t ih =>
    simp only [List.map_cons, List.mem_cons, not_or] at h
    rw [alookup, if_neg (fun he => h.1 he.symm), ih h.2]

theorem alookup_mem {α β : Type} [DecidableEq α] {k : α} {v : β}
    {m : List (α × β)} (h : alookup k m = some v) : (k, v) ∈ m := by
  induction m with
  | nil => simp [alookup] at h
  | cons e t ih =>
    rw [alookup] at h
    by_cases he : e.1 = k
    · rw [if_pos he] at h
      obtain ⟨e1, e2⟩ := e
      obtain rfl : e2 = v := Option.some.inj h
      obtain rfl : e1 = k := he
      exact List.mem_cons_self _ _
    · rw [if_neg he] at h
      exact List.mem_cons_of_mem _ (ih h)

theorem aset_eq_of_alookup_none {α β : Type} [DecidableEq α] {k : α} {v : β}
    {m : List (α × β)} (h : alookup k m = none) : aset k v m = m := by
  induction m with
  | nil => rfl
  | cons e t ih =>
    rw [alookup] at h
    by_cases he : e.1 = k
    · rw [if_pos he] at h
      simp at h
    · rw [if_neg he] at h
      rw [aset, if_neg he, ih h]

theorem aset_aset {α β : Type} [DecidableEq α] {k : α} {v v' : β}
    {m : List (α × β)} : aset k v' (aset k v m) = aset k v' m := by
  induction m with
  | nil => rfl
  | cons e t ih =>
    by_cases he : e.1 = k
    · rw [aset, if_pos he, aset, if_pos rfl, aset, if_pos he, ih]
    · rw [aset, if_neg he, aset, if_neg he, aset, if_neg he, ih]

theorem alookup_aset_self {α β : Type} [DecidableEq α] {k : α} {v v' : β}
    {m : List (α × β)} (h : alookup k m = some v) :
    alookup k (aset k v' m) = some v' := by
  induction m with
  | nil => simp [alookup] at h
  | cons e t ih =>
    rw [alookup] at h
    by_cases he : e.1 = k
    · rw [aset, if_pos he, alookup, if_pos rfl]
    · rw [if_neg he] at h
      rw [aset, if_neg he, alookup, if_neg he, ih h]

theorem aset_self {α β : Type} [DecidableEq α] {k : α} {v : β}
    {m : List (α × β)} (hnd : (m.map Prod.fst).Nodup)
    (h : alookup k m = some v) : aset k v m = m := by
  induction m with
  | nil => rfl
  | cons e t ih =>
    simp only [List.map_cons, List.nodup_cons] at hnd
    rw [alookup] at h
    by_cases he : e.1 = k
    · rw [if_pos he] at h
      rw [aset, if_pos he]
      have ht : alookup k t = none :=
        alookup_none_of_not_mem (he ▸ hnd.1)
      rw [aset_eq_of_alookup_none ht]
      obtain ⟨e1, e2⟩ := e
      obtain rfl : e2 = v := Option.some.inj h
      obtain rfl : e1 = k := he
      rfl
    · rw [if_neg he] at h
      rw [aset, if_neg he, ih hnd.2 h]

theorem eraseId_middle {id : Nat} {xs ys : List Nat} (h : id ∉ xs) :
    eraseId id (xs ++ id :: ys) = xs ++ ys := by
  induction xs with
  | nil => simp [eraseId]
  | cons x t ih =>
    simp only [List.mem_cons, not_or] at h
    rw [List.cons_append, eraseId, if_neg (fun hx => h.1 hx.symm), ih h.2,
      List.cons_append]

theorem eraseId_append_self {id : Nat} {xs : List Nat} (h : id ∉ xs) :
    eraseId id (xs ++ [id]) = xs := by
  have h2 := @eraseId_middle id xs [] h
  simpa using h2

theorem aerase_aset_insertAsc {p : Int} {v lvl : PriceLevel}
    {m : List (Int × PriceLevel)} (h : alookup p m = none) :
    aerase p (aset p v (insertAsc p lvl m)) = m := by
  induction m with
  | nil => simp [insertAsc, aset, aerase]
  | cons e t ih =>
    rw [alookup] at h
    by_cases he : e.1 = p
    · rw [if_pos he] at h
      simp at h
    · rw [if_neg he] at h
      rw [insertAsc]
      by_cases hlt : p < e.1
      · rw [if_pos hlt, aset, if_pos rfl, aset, if_neg he,
          aset_eq_of_alookup_none h, aerase, if_pos rfl]
      · rw [if_neg hlt, aset, if_neg he, aerase, if_neg he, ih h]

theorem aerase_aset_insertDesc {p : Int} {v lvl : PriceLevel}
    {m : List (Int × PriceLevel)} (h : alookup p m = none) :
    aerase p (aset p v (insertDesc p lvl m)) = m := by
  induction m with
  | nil => simp [insertDesc, aset, aerase]
  | cons e t ih =>
    rw [alookup] at h
    by_cases he : e.1 = p
    · rw [if_pos he] at h
      simp at h
    · rw [if_neg he] at h
      rw [insertDesc]
      by_cases hlt : e.1 < p
      · rw [if_pos hlt, aset, if_pos rfl, aset, if_neg he,
          aset_eq_of_alookup_none h, aerase, if_pos rfl]
      · rw [if_neg hlt, aset, if_neg he, aerase, if_neg he, ih h]

theorem alookup_aset_insertAsc {p : Int} {v lvl : PriceLevel}
    {m : List (Int × PriceLevel)} (h : alookup p m = none) :
    alookup p (aset p v (insertAsc p lvl m)) = some v := by
  induction m with
  | nil => simp [insertAsc, aset, alookup]
  | cons e t ih =>
    rw [alookup] at h
    by_cases he : e.1 = p
    · rw [if_pos he] at h
      simp at h
    · rw [if_neg he] at h
      rw [insertAsc]
      by_cases hlt : p < e.1
      · rw [if_pos hlt, aset, if_pos rfl, alookup, if_pos rfl]
      · rw [if_neg hlt, aset, if_neg he, alookup, if_neg he, ih h]

theorem alookup_aset_insertDesc {p : Int} {v lvl : PriceLevel}
    {m : List (Int × PriceLevel)} (h : alookup p m = none) :
    alookup p (aset p v (insertDesc p lvl m)) = some v := by
  induction m with
  | nil => simp [insertDesc, aset, alookup]
  | cons e t ih =>
    rw [alookup] at h
    by_cases he : e.1 = p
    · rw [if_pos he] at h
      simp at h
    · rw [if_neg he] at h
      rw [insertDesc]
      by_cases hlt : e.1 < p
      · rw [if_pos hlt, aset, if_pos rfl, alookup, if_pos rfl]
      · rw [if_neg hlt, aset, if_neg he, alookup, if_neg he, ih h]

/-! ## Claim C1 -/

/-- C1: the claim fails on the code.  In scenario S5 (ask 10005×40,
ask 10010×30), `submit(10010, 100, Buy, FOK)` cannot be fully satisfied
(crossable liquidity is 70 < 100), yet the engine emits a partial-fill
trade of 40 at 10005, removes the 10005 ask level from the book, and only
then rejects and deallocates the order: matching is eager and the
partial fills are not rolled back. -/
theorem fok_unsatisfiable_submit_emits_trade_and_mutates_book :
    bookS5.trades = [] ∧
    bookS5AfterFok.trades =
      [{ buyOrderId := 3, sellOrderId := 1, price := 10005, quantity := 40 }] ∧
    bookS5AfterFok.askLevels ≠ bookS5.askLevels ∧
    alookup 10005 bookS5AfterFok.askLevels = none ∧
    alookup 3 bookS5AfterFok.orders = none := by
  decide

/-! ## Claim C2 -/

/-- C2: the claim fails on the code.  A market buy submitted into a book
with an empty opposite side emits no trade and leaves the book levels
unchanged, but the order is neither marked Rejected nor deallocated: it
stays in the order index with status New. -/
theorem market_order_empty_side_left_new_in_index :
    (alookup 1 bookIdleMarket.orders).map Order.status = some .new ∧
    bookIdleMarket.trades = [] ∧
    bookIdleMarket.bidLevels = [] ∧
    bookIdleMarket.askLevels = [] := by
  decide

/-! ## Claim C4 -/

/-- C4: the claim fails on the code.  Submitting a market buy at price 100
into an empty book leaves it idle in the index (status New); after a sell
limit 50×10 rests, cancelling the idle market order calls
`get_or_create_level(100, BUY)` followed by `remove_order` on a cell that
was never linked, creating a phantom bid level whose `order_count`
underflows to `2^32 - 1` (so it is not removed as empty): the completed
cancel leaves best bid 100 above best ask 50 — a crossed book. -/
theorem cancel_of_idle_market_order_crosses_book :
    bookAfterIdleCancel.getBestBid = some 100 ∧
    bookAfterIdleCancel.getBestAsk = some 50 ∧
    (alookup 100 bookAfterIdleCancel.bidLevels).map PriceLevel.orderCount =
      some (U32 - 1) ∧
    (alookup 100 bookAfterIdleCancel.bidLevels).map PriceLevel.orders = some [] ∧
    ¬ (100 : Int) < 50 := by
  decide

/-! ## Claim C6 (counterexample) -/

/-- C6: counterexample to the claim as stated.  Submitting quantity 0 into
the fresh book returns the ordinary next identifier 1 (not a sentinel) and
the order index does change: it gains the zero-quantity order. -/
theorem zero_quantity_submit_changes_index :
    (emptyBook.addOrder 100 0 .buy .limit).1 = 1 ∧
    (emptyBook.addOrder 100 0 .buy .limit).2.orders ≠ emptyBook.orders := by
  decide

/-! ## Claim C8 (counterexample) -/

/-- C8: counterexample to the claim as stated.  With best bid -5 and best
ask -2 (both reachable by non-crossing limit submissions: prices are
signed ticks), the mid-price query returns `(-7) / 2` under C++
truncation-toward-zero, i.e. -3, whereas the integer-division floor (the
lower midpoint the claim demands for every odd sum) is -4. -/
theorem mid_price_not_floor_for_negative_sum :
    bookNegPrices.getBestBid = some (-5) ∧
    bookNegPrices.getBestAsk = some (-2) ∧
    bookNegPrices.getMidPrice = some (-3) ∧
    Int.fdiv ((-5) + (-2)) 2 = -4 ∧
    bookNegPrices.getMidPrice ≠ some (Int.fdiv ((-5) + (-2)) 2) := by
  decide

/-! ## Claim C6 (amended statement) -/

/-- C6 (amended): a submit with quantity 0 emits no trade, rests no order
and leaves both books' level lists unchanged, but it does return the
ordinary fresh identifier (the session counter value, not a sentinel) and
it does insert the zero-quantity order, with status New, into the order
index, where it stays. -/
theorem zero_quantity_submit_behavior (s : OrderBook) (p : Int) (side : Side)
    (otype : OrderType) :
    (s.addOrder p 0 side otype).1 = s.nextOrderId ∧
    (s.addOrder p 0 side otype).2.bidLevels = s.bidLevels ∧
    (s.addOrder p 0 side otype).2.askLevels = s.askLevels ∧
    (s.addOrder p 0 side otype).2.trades = s.trades ∧
    (alookup s.nextOrderId (s.addOrder p 0 side otype).2.orders).map
      Order.status = some .new ∧
    (alookup s.nextOrderId (s.addOrder p 0 side otype).2.orders).map
      Order.quantity = some 0 ∧
    (s.addOrder p 0 side otype).2.orders.length = s.orders.length + 1 := by
  cases otype <;> cases side <;>
    cases hA : s.askLevels <;> cases hB : s.bidLevels <;>
      simp [OrderBook.addOrder, OrderBook.matchLoop, OrderBook.matchStep,
        Order.isFullyFilled, alookup, hA, hB]

/-! ## Claim C8 (amended statement) -/

/-- C8 (amended): when both a best bid and a best ask exist, the mid-price
query returns `(bid + ask) / 2` under the C++ `int64_t` division, which
truncates toward zero; this agrees with the integer-division floor (the
lower of the two integer midpoints) whenever `bid + ask` is non-negative,
but not for negative odd sums. -/
theorem mid_price_truncates_toward_zero (s : OrderBook) (b a : Int)
    (hb : s.getBestBid = some b) (ha : s.getBestAsk = some a) :
    s.getMidPrice = some (Int.tdiv (b + a) 2) ∧
    (0 ≤ b + a → Int.tdiv (b + a) 2 = Int.fdiv (b + a) 2) := by
  constructor
  · unfold OrderBook.getMidPrice
    rw [hb, ha]
  · intro h
    exact (Int.fdiv_eq_tdiv h (by decide)).symm

/-- C8 witness: on the book with bid 9995 and ask 10005 the amended
statement applies and yields mid-price 10000. -/
theorem mid_price_truncates_witness :
    bookS1.getBestBid = some 9995 ∧ bookS1.getBestAsk = some 10005 ∧
    bookS1.getMidPrice = some (Int.tdiv (9995 + 10005) 2) ∧
    Int.tdiv (9995 + 10005) 2 = 10000 := by
  refine ⟨by decide, by decide, ?_, by decide⟩
  exact (mid_price_truncates_toward_zero bookS1 9995 10005 (by decide) (by decide)).1

/-! ## Claim C9 -/

/-- C9: when no price level exists at the queried price on the queried
side, `get_volume_at_price` returns the total quantity 0 (the function is
total — it does not fail or return an empty value), which is exactly what
it would return for a present level with zero aggregate. -/
theorem volume_at_absent_price_is_zero (s : OrderBook) (p : Int) (side : Side)
    (h : alookup p (sideLevels s side) = none) :
    s.getVolumeAtPrice p side = 0 := by
  cases side <;> simp only [sideLevels] at h <;>
    simp [OrderBook.getVolumeAtPrice, h]

/-- C9 witness: the S1 book has an ask level at 10005 but none at 9999;
the volume query at 9999 on the sell side returns 0. -/
theorem volume_at_absent_price_witness :
    alookup 9999 (sideLevels bookS1 .sell) = none ∧
    bookS1.getVolumeAtPrice 9999 .sell = 0 :=
  ⟨by decide, volume_at_absent_price_is_zero bookS1 9999 .sell (by decide)⟩

/-! ## Claim C10 -/

/-- C10: the market-state snapshot reports an empty side's best price as
the literal 0 (`value_or(0)`), and reports spread and mid-price as 0
whenever either side is empty — so the snapshot encodes "no price" as the
price 0, which is also a representable tick price. -/
theorem market_state_empty_side_reports_zero (s : OrderBook) :
    (s.bidLevels = [] → (s.getMarketState).bestBid = 0) ∧
    (s.askLevels = [] → (s.getMarketState).bestAsk = 0) ∧
    ((s.bidLevels = [] ∨ s.askLevels = []) →
      (s.getMarketState).spread = 0 ∧ (s.getMarketState).midPrice = 0) := by
  refine ⟨?_, ?_, ?_⟩
  · intro h
    simp [OrderBook.getMarketState, OrderBook.getBestBid, h]
  · intro h
    simp [OrderBook.getMarketState, OrderBook.getBestAsk, h]
  · rintro (h | h)
    · simp [OrderBook.getMarketState, OrderBook.getBestBid, h]
    · cases hbb : s.getBestBid <;>
        simp [OrderBook.getMarketState, OrderBook.getBestAsk,
          OrderBook.getBestBid, h] at hbb ⊢

/-- C10 witness: on the book whose bid side is empty and whose ask side
quotes 10005, the snapshot reports best bid 0, spread 0 and mid-price 0
while the ask side is genuinely quoted. -/
theorem market_state_empty_side_witness :
    (bookAsk1.getMarketState).bestBid = 0 ∧
    (bookAsk1.getMarketState).spread = 0 ∧
    (bookAsk1.getMarketState).midPrice = 0 ∧
    (bookAsk1.getMarketState).bestAsk = 10005 := by
  have h := market_state_empty_side_reports_zero bookAsk1
  exact ⟨h.1 (by decide), (h.2.2 (Or.inl (by decide))).1,
    (h.2.2 (Or.inl (by decide))).2, by decide⟩

/-! ## Projection lemmas for the matching machinery -/

theorem setLevel_trades (s : OrderBook) (p : Int) (side : Side)
    (lvl : PriceLevel) : (s.setLevel p side lvl).trades = s.trades := by
  cases side <;> rfl

theorem removeLevelIfEmpty_trades (s : OrderBook) (p : Int) (side : Side) :
    (s.removeLevelIfEmpty p side).trades = s.trades := by
  cases side <;> dsimp only [OrderBook.removeLevelIfEmpty]
  · cases alookup p s.bidLevels with
    | none => rfl
    | some lvl =>
      dsimp only
      split <;> rfl
  · cases alookup p s.askLevels with
    | none => rfl
    | some lvl =>
      dsimp only
      split <;> rfl

theorem getOrCreateLevel_trades (s : OrderBook) (p : Int) (side : Side) :
    ((s.getOrCreateLevel p side).2).trades = s.trades := by
  cases side <;> dsimp only [OrderBook.getOrCreateLevel]
  · cases alookup p s.bidLevels with
    | none => rfl
    | some lvl => rfl
  · cases alookup p s.askLevels with
    | none => rfl
    | some lvl => rfl

/-- The trade record appended by `execute_trade`: buyer is the buy side's
identifier, seller the sell side's, the price is the passive order's
price, the quantity the one passed in. -/
theorem executeTrade_trades (s : OrderBook) (pa ag : Order) (q : Nat) :
    ((s.executeTrade pa ag q).1).trades =
      s.trades ++
        [{ buyOrderId := if pa.side = .buy then pa.id else ag.id
           sellOrderId := if pa.side = .sell then pa.id else ag.id
           price := pa.price
           quantity := q }] := by
  unfold OrderBook.executeTrade
  rcases h : s.getOrCreateLevel pa.price pa.side with ⟨lvl, s₂⟩
  have ht : s₂.trades = s.trades := by
    have h2 : (s.getOrCreateLevel pa.price pa.side).2 = s₂ := congrArg Prod.snd h
    rw [← h2, getOrCreateLevel_trades]
  dsimp only
  rw [h]
  dsimp only
  split <;> split <;>
    first
      | (rw [removeLevelIfEmpty_trades, setLevel_trades]; dsimp only; rw [ht])
      | (rw [setLevel_trades]; dsimp only; rw [ht])

/-! ## Claim C3 -/

/-- C3: whenever the guard of the matching loop lets an iteration run
(incoming not fully filled, opposite side non-empty, incoming price
crossing the best opposite level — equality included, since the loop only
breaks on the strict comparison), the iteration trades against the head
order of the best opposite level, emits exactly one trade whose price is
that passive order's price and whose quantity is
`min(incoming.remaining, passive.remaining)`, with the buy side's
identifier as buyer and the sell side's as seller. -/
theorem matching_iteration_trades_head_at_passive_price
    (s : OrderBook) (incoming passiveOrder : Order) (bp : Int) (L : PriceLevel)
    (passiveId : Nat)
    (hnf : incoming.isFullyFilled = false)
    (htop : oppTop s incoming.side = some (bp, L))
    (hcross : priceCrosses incoming.side incoming.price L.price)
    (hhead : L.getBestOrder = some passiveId)
    (hpassive : alookup passiveId s.orders = some passiveOrder)
    (hpside : passiveOrder.side = oppSide incoming.side) :
    ∃ s' incoming',
      (s.matchStep incoming = .stop s' incoming' ∨
        s.matchStep incoming = .next s' incoming') ∧
      s'.trades = s.trades ++
        [{ buyOrderId := if incoming.side = .buy then incoming.id else passiveOrder.id
           sellOrderId := if incoming.side = .sell then incoming.id else passiveOrder.id
           price := passiveOrder.price
           quantity := min incoming.remainingQuantity passiveOrder.remainingQuantity }] := by
  have htr := executeTrade_trades s passiveOrder incoming
    (min incoming.remainingQuantity passiveOrder.remainingQuantity)
  cases hside : incoming.side
  case buy =>
    rw [hside] at htop hcross hpside
    simp only [oppSide] at hpside
    rcases hAsk : s.askLevels with _ | ⟨e, rest⟩
    · rw [oppTop, hAsk] at htop
      simp at htop
    · rw [oppTop, hAsk, List.head?_cons, Option.some.injEq] at htop
      subst htop
      rcases hET : s.executeTrade passiveOrder incoming
          (min incoming.remainingQuantity passiveOrder.remainingQuantity)
        with ⟨s₂, pa₂, inc₂⟩
      have hs₂ : s₂.trades = s.trades ++
          [{ buyOrderId := incoming.id
             sellOrderId := passiveOrder.id
             price := passiveOrder.price
             quantity := min incoming.remainingQuantity passiveOrder.remainingQuantity }] := by
        rw [hET] at htr
        simpa [hpside] using htr
      unfold OrderBook.matchStep
      rw [hnf, if_neg Bool.false_ne_true, hside]
      dsimp only
      rw [hAsk]
      dsimp only
      rw [if_neg (not_lt.mpr hcross), hhead]
      dsimp only
      rw [hpassive]
      dsimp only
      rw [hET]
      dsimp only
      split
      · exact ⟨_, _, Or.inl rfl, by simpa using hs₂⟩
      · split
        · exact ⟨_, _, Or.inl rfl, by simpa using hs₂⟩
        · exact ⟨_, _, Or.inr rfl, by simpa using hs₂⟩
  case sell =>
    rw [hside] at htop hcross hpside
    simp only [oppSide] at hpside
    rcases hBid : s.bidLevels with _ | ⟨e, rest⟩
    · rw [oppTop, hBid] at htop
      simp at htop
    · rw [oppTop, hBid, List.head?_cons, Option.some.injEq] at htop
      subst htop
      rcases hET : s.executeTrade passiveOrder incoming
          (min incoming.remainingQuantity passiveOrder.remainingQuantity)
        with ⟨s₂, pa₂, inc₂⟩
      have hs₂ : s₂.trades = s.trades ++
          [{ buyOrderId := passiveOrder.id
             sellOrderId := incoming.id
             price := passiveOrder.price
             quantity := min incoming.remainingQuantity passiveOrder.remainingQuantity }] := by
        rw [hET] at htr
        simpa [hpside] using htr
      unfold OrderBook.matchStep
      rw [hnf, if_neg Bool.false_ne_true, hside]
      dsimp only
      rw [hBid]
      dsimp only
      rw [if_neg (not_lt.mpr hcross), hhead]
      dsimp only
      rw [hpassive]
      dsimp only
      rw [hET]
      dsimp only
      split
      · exact ⟨_, _, Or.inl rfl, by simpa using hs₂⟩
      · split
        · exact ⟨_, _, Or.inl rfl, by simpa using hs₂⟩
        · exact ⟨_, _, Or.inr rfl, by simpa using hs₂⟩

/-- C3 witness: in the S5 book, an incoming limit buy at exactly the best
ask price 10005 (equality crosses) trades with the head order of the best
ask level at the passive price 10005 for quantity `min(50, 40)`. -/
theorem matching_iteration_witness :
    ∃ s' incoming',
      (bookS5.matchStep incAtBestAsk = .stop s' incoming' ∨
        bookS5.matchStep incAtBestAsk = .next s' incoming') ∧
      s'.trades = bookS5.trades ++
        [{ buyOrderId := incAtBestAsk.id
           sellOrderId := passiveAsk1.id
           price := passiveAsk1.price
           quantity := min incAtBestAsk.remainingQuantity
             passiveAsk1.remainingQuantity }] := by
  have h := matching_iteration_trades_head_at_passive_price bookS5 incAtBestAsk
    passiveAsk1 10005 bestAskLevelS5 1 (by decide) (by decide) (le_refl _)
    (by decide) (by decide) (by decide)
  simpa using h

/-! ## Claim C5 -/

/-- A well-used sequence of level operations keeps the cached aggregate
equal to the sum of the linked orders' remaining quantities, the cached
count equal to their number, and the FIFO equal to the tracked
identifiers. -/
theorem goodOps_syncs {m mFinal : List (Nat × Nat)} {ops : List LevelOp}
    (h : GoodOps m ops mFinal) :
    ∀ l : PriceLevel, LevelSyncs l m →
      (m.map Prod.snd).sum < U64 → m.length < U32 →
      LevelSyncs (runLevelOps l ops) mFinal := by
  induction h with
  | nil m =>
    intro l hs _ _
    exact hs
  | add o m mNew ops mFinal hfresh hsum hcount hnew hrest ih =>
    intro l hs hb hc
    obtain ⟨h1, h2, h3⟩ := hs
    subst hnew
    have hstep : LevelSyncs (l.addOrder o) (m ++ [(o.id, o.remainingQuantity)]) := by
      refine ⟨?_, ?_, ?_⟩
      · rw [PriceLevel.addOrder]
        dsimp only
        rw [h1, Nat.mod_eq_of_lt hsum]
        simp only [List.map_append, List.sum_append, List.map_cons,
          List.map_nil, List.sum_cons, List.sum_nil]
        omega
      · rw [PriceLevel.addOrder]
        dsimp only
        rw [h2, Nat.mod_eq_of_lt hcount]
        simp only [List.length_append, List.length_cons, List.length_nil]
      · rw [PriceLevel.addOrder]
        dsimp only
        rw [h3]
        simp
    have hb' : ((m ++ [(o.id, o.remainingQuantity)]).map Prod.snd).sum < U64 := by
      simpa using hsum
    have hc' : (m ++ [(o.id, o.remainingQuantity)]).length < U32 := by
      simpa using hcount
    simpa [runLevelOps, applyLevelOp] using
      ih (l.addOrder o) hstep hb' hc'
  | remove o m m₁ m₂ mNew ops mFinal hsplit hfresh hnew hrest ih =>
    intro l hs hb hc
    obtain ⟨h1, h2, h3⟩ := hs
    subst hsplit
    subst hnew
    have hsum₁ : ((m₁ ++ (o.id, o.remainingQuantity) :: m₂).map Prod.snd).sum =
        (m₁.map Prod.snd).sum + o.remainingQuantity + (m₂.map Prod.snd).sum := by
      simp [List.sum_append]
      omega
    have ha : l.totalQuantity < U64 := by
      rw [h1]
      exact hb
    have hble : o.remainingQuantity ≤ l.totalQuantity := by
      rw [h1, hsum₁]
      omega
    have hc1 : l.orderCount < U32 := by
      rw [h2]
      exact hc
    have hc2 : 1 ≤ l.orderCount := by
      rw [h2, List.length_append, List.length_cons]
      omega
    have hstep : LevelSyncs (l.removeOrder o) (m₁ ++ m₂) := by
      refine ⟨?_, ?_, ?_⟩
      · rw [PriceLevel.removeOrder]
        dsimp only
        rw [wsub_eq_sub hble ha, h1, hsum₁]
        simp only [List.map_append, List.sum_append]
        omega
      · rw [PriceLevel.removeOrder]
        dsimp only
        rw [wsub_eq_sub hc2 hc1, h2]
        simp only [List.length_append, List.length_cons]
        omega
      · rw [PriceLevel.removeOrder]
        dsimp only
        rw [h3]
        simp only [List.map_append, List.map_cons]
        rw [eraseId_middle (by simpa using hfresh)]
    have hb' : ((m₁ ++ m₂).map Prod.snd).sum < U64 := by
      rw [hsum₁] at hb
      simp only [List.map_append, List.sum_append]
      omega
    have hc' : (m₁ ++ m₂).length < U32 := by
      simp only [List.length_append, List.length_cons] at hc ⊢
      omega
    simpa [runLevelOps, applyLevelOp] using
      ih (l.removeOrder o) hstep hb' hc'
  | update o oldRemaining m m₁ m₂ mNew ops mFinal hsplit hfresh hnew hsum hrest ih =>
    intro l hs hb hc
    obtain ⟨h1, h2, h3⟩ := hs
    subst hsplit
    subst hnew
    have hsum₁ : ((m₁ ++ (o.id, oldRemaining) :: m₂).map Prod.snd).sum =
        (m₁.map Prod.snd).sum + oldRemaining + (m₂.map Prod.snd).sum := by
      simp [List.sum_append]
      omega
    have hsum₂ : ((m₁ ++ (o.id, o.remainingQuantity) :: m₂).map Prod.snd).sum =
        (m₁.map Prod.snd).sum + o.remainingQuantity + (m₂.map Prod.snd).sum := by
      simp [List.sum_append]
      omega
    have ha : l.totalQuantity < U64 := by
      rw [h1]
      exact hb
    have hble : oldRemaining ≤ l.totalQuantity := by
      rw [h1, hsum₁]
      omega
    have hstep : LevelSyncs (l.updateQuantity o oldRemaining)
        (m₁ ++ (o.id, o.remainingQuantity) :: m₂) := by
      refine ⟨?_, h2.trans (by simp), h3.trans (by simp)⟩
      rw [PriceLevel.updateQuantity]
      dsimp only
      rw [wsub_eq_sub hble ha, h1, hsum₁, hsum₂]
      rw [Nat.mod_eq_of_lt (by have h := hsum; rw [hsum₂] at h; omega)]
      omega
    have hc' : (m₁ ++ (o.id, o.remainingQuantity) :: m₂).length < U32 := by
      simpa using hc
    simpa [runLevelOps, applyLevelOp] using
      ih (l.updateQuantity o oldRemaining) hstep hsum hc'

/-- The identifiers linked after a well-used sequence form a subsequence
of the identifiers added by the sequence, in order (head-to-tail is
submission order). -/
theorem goodOps_fifo {m mFinal : List (Nat × Nat)} {ops : List LevelOp}
    (h : GoodOps m ops mFinal) :
    List.Sublist (mFinal.map Prod.fst) (m.map Prod.fst ++ addedIds ops) := by
  induction h with
  | nil m => simp
  | add o m mNew ops mFinal hfresh hsum hcount hnew hrest ih =>
    subst hnew
    simp only [addedIds]
    simp only [List.map_append, List.map_cons, List.map_nil,
      List.append_assoc, List.singleton_append] at ih ⊢
    exact ih
  | remove o m m₁ m₂ mNew ops mFinal hsplit hfresh hnew hrest ih =>
    subst hsplit
    subst hnew
    simp only [addedIds]
    refine ih.trans ?_
    simp only [List.map_append, List.map_cons, List.append_assoc]
    exact (List.sublist_cons_self o.id (m₂.map Prod.fst ++ addedIds ops)).append_left
      (m₁.map Prod.fst)
  | update o oldRemaining m m₁ m₂ mNew ops mFinal hsplit hfresh hnew hsum hrest ih =>
    subst hsplit
    subst hnew
    simp only [addedIds]
    simp only [List.map_append, List.map_cons] at ih ⊢
    exact ih

/-- C5: for every price level (any price `p`) and every well-used sequence
of `add_order` / `remove_order` / `update_quantity` operations starting
from the freshly constructed level, the cached `total_quantity` equals the
sum of the remaining quantities (original minus filled) of the linked
orders, the cached `order_count` equals the number of linked orders, and
the head-to-tail FIFO holds exactly the linked identifiers, in submission
order (a subsequence of the identifiers in order of addition). -/
theorem priceLevel_aggregate_count_fifo (p : Int) (ops : List LevelOp)
    (mFinal : List (Nat × Nat)) (h : GoodOps [] ops mFinal) :
    (runLevelOps ⟨p, 0, 0, []⟩ ops).totalQuantity = (mFinal.map Prod.snd).sum ∧
    (runLevelOps ⟨p, 0, 0, []⟩ ops).orderCount = mFinal.length ∧
    (runLevelOps ⟨p, 0, 0, []⟩ ops).orders = mFinal.map Prod.fst ∧
    List.Sublist (runLevelOps ⟨p, 0, 0, []⟩ ops).orders (addedIds ops) := by
  have hs := goodOps_syncs h ⟨p, 0, 0, []⟩ ⟨rfl, rfl, rfl⟩
    (by simp [U64]) (by simp [U32])
  obtain ⟨h1, h2, h3⟩ := hs
  refine ⟨h1, h2, h3, ?_⟩
  rw [h3]
  simpa using goodOps_fifo h

/-- C5 witness: link order 1 (remaining 40) and order 2 (remaining 30),
partially fill order 2 down to remaining 20, then unlink order 1; the
level ends with aggregate 20, count 1, and FIFO `[2]`, a subsequence of
the added identifiers `[1, 2]`. -/
theorem priceLevel_invariant_witness :
    GoodOps [] wLevelOps [(2, 20)] ∧
    (runLevelOps ⟨100, 0, 0, []⟩ wLevelOps).totalQuantity = 20 ∧
    (runLevelOps ⟨100, 0, 0, []⟩ wLevelOps).orderCount = 1 ∧
    (runLevelOps ⟨100, 0, 0, []⟩ wLevelOps).orders = [2] ∧
    List.Sublist (runLevelOps ⟨100, 0, 0, []⟩ wLevelOps).orders
      (addedIds wLevelOps) := by
  have hg : GoodOps [] wLevelOps [(2, 20)] := by
    show GoodOps [] [.add wOrder1, .add wOrder2, .update wOrder2Filled 30,
      .remove wOrder1] [(2, 20)]
    refine GoodOps.add wOrder1 [] [(1, 40)] _ _ (by decide) (by decide)
      (by decide) (by decide) ?_
    refine GoodOps.add wOrder2 [(1, 40)] [(1, 40), (2, 30)] _ _ (by decide)
      (by decide) (by decide) (by decide) ?_
    refine GoodOps.update wOrder2Filled 30 [(1, 40), (2, 30)] [(1, 40)] []
      [(1, 40), (2, 20)] _ _ (by decide) (by decide) (by decide) (by decide) ?_
    refine GoodOps.remove wOrder1 [(1, 40), (2, 20)] [] [(2, 20)] [(2, 20)] _ _
      (by decide) (by decide) (by decide) ?_
    exact GoodOps.nil [(2, 20)]
  have h := priceLevel_aggregate_count_fifo 100 wLevelOps [(2, 20)] hg
  exact ⟨hg, by simpa using h.1, by simpa using h.2.1, by simpa using h.2.2.1,
    h.2.2.2⟩

/-! ## Claim C7 -/

theorem wsub_lt {w a b : Nat} (hw : 0 < w) : wsub w a b < w :=
  Nat.mod_lt _ hw

theorem remainingQuantity_lt (o : Order) : o.remainingQuantity < U64 :=
  wsub_lt (by decide)

/-- Unlinking a freshly appended order restores the level exactly,
provided the identifier was not already linked and the counters are in
range (C++ `add_order` followed by `remove_order` on the same cell). -/
theorem addOrder_removeOrder_of_fresh (L : PriceLevel) (o : Order)
    (hid : o.id ∉ L.orders) (ht : L.totalQuantity < U64)
    (hc : L.orderCount < U32) :
    (L.addOrder o).removeOrder o = L := by
  obtain ⟨lp, lt, lc, lo⟩ := L
  simp only [PriceLevel.addOrder, PriceLevel.removeOrder]
  rw [wsub_add_cancel ht (remainingQuantity_lt o),
    wsub_add_cancel hc (by decide : (1 : Nat) < U32),
    eraseId_append_self hid]

/-- When the incoming order does not cross the opposite top of book, the
matching loop breaks on its first iteration without touching the state. -/
theorem matchStep_noncross (s : OrderBook) (o : Order)
    (hnf : o.isFullyFilled = false)
    (hnc : doesNotCross s o.price o.side = true) :
    s.matchStep o = .stop s o := by
  cases hside : o.side
  case buy =>
    rw [hside] at hnc
    unfold OrderBook.matchStep
    rw [hnf, if_neg Bool.false_ne_true, hside]
    dsimp only
    cases hA : s.askLevels with
    | nil => rfl
    | cons e rest =>
      rw [doesNotCross, hA] at hnc
      simp only [List.head?_cons, Option.all_some, decide_eq_true_eq] at hnc
      dsimp only
      rw [if_pos hnc]
  case sell =>
    rw [hside] at hnc
    unfold OrderBook.matchStep
    rw [hnf, if_neg Bool.false_ne_true, hside]
    dsimp only
    cases hB : s.bidLevels with
    | nil => rfl
    | cons e rest =>
      rw [doesNotCross, hB] at hnc
      simp only [List.head?_cons, Option.all_some, decide_eq_true_eq] at hnc
      dsimp only
      rw [if_pos hnc]

/-- A loop whose first iteration stops returns the state unchanged, for
any positive fuel. -/
theorem matchLoop_stop {s : OrderBook} {o : Order} (fuel : Nat)
    (h : s.matchStep o = .stop s o) :
    OrderBook.matchLoop (fuel + 1) s o = (s, o) := by
  simp only [OrderBook.matchLoop, h]

/-- A non-crossing limit submission returns the fresh identifier and
produces exactly the rested book `restLimit`. -/
theorem addOrder_limit_noncross (s : OrderBook) (p : Int) (q : Nat)
    (side : Side) (hq : 0 < q) (hnc : doesNotCross s p side = true) :
    s.addOrder p q side .limit = (s.nextOrderId, restLimit s p q side) := by
  have hnf : (freshLimitOrder s p q side).isFullyFilled = false := by
    simp [freshLimitOrder, Order.isFullyFilled]
    omega
  have hstop :
      OrderBook.matchStep
        { s with
          nextOrderId := s.nextOrderId + 1
          orders := (s.nextOrderId, freshLimitOrder s p q side) :: s.orders }
        (freshLimitOrder s p q side) =
      .stop
        { s with
          nextOrderId := s.nextOrderId + 1
          orders := (s.nextOrderId, freshLimitOrder s p q side) :: s.orders }
        (freshLimitOrder s p q side) :=
    matchStep_noncross _ _ hnf hnc
  have hrestcond :
      ¬ (freshLimitOrder s p q side).isFullyFilled = true ∧
        (freshLimitOrder s p q side).status ≠ .cancelled ∧
        (freshLimitOrder s p q side).status ≠ .rejected ∧
        OrderType.limit = OrderType.limit := by
    refine ⟨by rw [hnf]; exact Bool.false_ne_true, by simp [freshLimitOrder],
      by simp [freshLimitOrder], rfl⟩
  simp only [freshLimitOrder] at hstop hrestcond
  cases side
  case buy =>
    unfold OrderBook.addOrder
    simp only [if_neg (by decide : ¬ (OrderType.limit = OrderType.market))]
    rw [matchLoop_stop _ hstop]
    dsimp only
    rw [if_pos hrestcond]
    rfl
  case sell =>
    unfold OrderBook.addOrder
    simp only [if_neg (by decide : ¬ (OrderType.limit = OrderType.market))]
    rw [matchLoop_stop _ hstop]
    dsimp only
    rw [if_pos hrestcond]
    rfl

/-- Cancelling the freshly rested non-crossing limit order restores the
book bit-identically, only the session counter having advanced. -/
theorem cancelOrder_restLimit (s : OrderBook) (p : Int) (q : Nat) (side : Side)
    (hq : 0 < q) (hq64 : q < U64) (hwf : RoundTripWF s) :
    (restLimit s p q side).cancelOrder s.nextOrderId =
      (true, { s with nextOrderId := s.nextOrderId + 1 }) := by
  obtain ⟨hfresh, hbid, hask⟩ := hwf
  have hnotfull : ∀ sd : Side,
      ¬ (Order.mk s.nextOrderId p q 0 sd .limit .new).isFullyFilled = true := by
    intro sd
    simp [Order.isFullyFilled]
    omega
  cases side
  case buy =>
    obtain ⟨hnd, hmem⟩ := hbid
    cases hL : alookup p s.bidLevels with
    | some L =>
      obtain ⟨hc0, hcU, htU, hidL⟩ := hmem _ (alookup_mem hL)
      have hrest : restLimit s p q .buy =
          { s with
            nextOrderId := s.nextOrderId + 1
            orders := (s.nextOrderId,
              Order.mk s.nextOrderId p q 0 .buy .limit .new) :: s.orders
            bidLevels := aset p
              (L.addOrder (Order.mk s.nextOrderId p q 0 .buy .limit .new))
              s.bidLevels } := by
        unfold restLimit freshLimitOrder OrderBook.getOrCreateLevel
        try dsimp only
        rw [hL]
        rfl
      rw [hrest]
      unfold OrderBook.cancelOrder
      try dsimp only
      rw [alookup, if_pos rfl]
      try dsimp only
      rw [if_pos (hnotfull .buy)]
      unfold OrderBook.getOrCreateLevel
      try dsimp only
      rw [alookup_aset_self hL]
      try dsimp only
      rw [addOrder_removeOrder_of_fresh L _ hidL htU hcU]
      unfold OrderBook.setLevel
      try dsimp only
      rw [aset_aset, aset_self hnd hL]
      unfold OrderBook.removeLevelIfEmpty
      try dsimp only
      rw [hL]
      try dsimp only
      rw [if_neg (by simp [PriceLevel.isEmpty, hc0])]
      try dsimp only
      rw [aset, if_pos rfl]
      try dsimp only
      rw [aset_eq_of_alookup_none hfresh, aerase, if_pos rfl]
    | none =>
      have hrest : restLimit s p q .buy =
          { s with
            nextOrderId := s.nextOrderId + 1
            orders := (s.nextOrderId,
              Order.mk s.nextOrderId p q 0 .buy .limit .new) :: s.orders
            bidLevels := aset p
              ((PriceLevel.mk p 0 0 []).addOrder
                (Order.mk s.nextOrderId p q 0 .buy .limit .new))
              (insertDesc p (PriceLevel.mk p 0 0 []) s.bidLevels) } := by
        unfold restLimit freshLimitOrder OrderBook.getOrCreateLevel
        try dsimp only
        rw [hL]
        rfl
      rw [hrest]
      unfold OrderBook.cancelOrder
      try dsimp only
      rw [alookup, if_pos rfl]
      try dsimp only
      rw [if_pos (hnotfull .buy)]
      unfold OrderBook.getOrCreateLevel
      try dsimp only
      rw [alookup_aset_insertDesc hL]
      try dsimp only
      rw [addOrder_removeOrder_of_fresh _ _ (by simp)
        (by show (0 : Nat) < U64; decide) (by show (0 : Nat) < U32; decide)]
      unfold OrderBook.setLevel
      try dsimp only
      rw [aset_aset]
      unfold OrderBook.removeLevelIfEmpty
      try dsimp only
      rw [alookup_aset_insertDesc hL]
      try dsimp only
      rw [if_pos (show (PriceLevel.mk p 0 0 []).isEmpty = true from rfl)]
      try dsimp only
      rw [aerase_aset_insertDesc hL]
      try dsimp only
      rw [aset, if_pos rfl]
      try dsimp only
      rw [aset_eq_of_alookup_none hfresh, aerase, if_pos rfl]
  case sell =>
    obtain ⟨hnd, hmem⟩ := hask
    cases hL : alookup p s.askLevels with
    | some L =>
      obtain ⟨hc0, hcU, htU, hidL⟩ := hmem _ (alookup_mem hL)
      have hrest : restLimit s p q .sell =
          { s with
            nextOrderId := s.nextOrderId + 1
            orders := (s.nextOrderId,
              Order.mk s.nextOrderId p q 0 .sell .limit .new) :: s.orders
            askLevels := aset p
              (L.addOrder (Order.mk s.nextOrderId p q 0 .sell .limit .new))
              s.askLevels } := by
        unfold restLimit freshLimitOrder OrderBook.getOrCreateLevel
        try dsimp only
        rw [hL]
        rfl
      rw [hrest]
      unfold OrderBook.cancelOrder
      try dsimp only
      rw [alookup, if_pos rfl]
      try dsimp only
      rw [if_pos (hnotfull .sell)]
      unfold OrderBook.getOrCreateLevel
      try dsimp only
      rw [alookup_aset_self hL]
      try dsimp only
      rw [addOrder_removeOrder_of_fresh L _ hidL htU hcU]
      unfold OrderBook.setLevel
      try dsimp only
      rw [aset_aset, aset_self hnd hL]
      unfold OrderBook.removeLevelIfEmpty
      try dsimp only
      rw [hL]
      try dsimp only
      rw [if_neg (by simp [PriceLevel.isEmpty, hc0])]
      try dsimp only
      rw [aset, if_pos rfl]
      try dsimp only
      rw [aset_eq_of_alookup_none hfresh, aerase, if_pos rfl]
    | none =>
      have hrest : restLimit s p q .sell =
          { s with
            nextOrderId := s.nextOrderId + 1
            orders := (s.nextOrderId,
              Order.mk s.nextOrderId p q 0 .sell .limit .new) :: s.orders
            askLevels := aset p
              ((PriceLevel.mk p 0 0 []).addOrder
                (Order.mk s.nextOrderId p q 0 .sell .limit .new))
              (insertAsc p (PriceLevel.mk p 0 0 []) s.askLevels) } := by
        unfold restLimit freshLimitOrder OrderBook.getOrCreateLevel
        try dsimp only
        rw [hL]
        rfl
      rw [hrest]
      unfold OrderBook.cancelOrder
      try dsimp only
      rw [alookup, if_pos rfl]
      try dsimp only
      rw [if_pos (hnotfull .sell)]
      unfold OrderBook.getOrCreateLevel
      try dsimp only
      rw [alookup_aset_insertAsc hL]
      try dsimp only
      rw [addOrder_removeOrder_of_fresh _ _ (by simp)
        (by show (0 : Nat) < U64; decide) (by show (0 : Nat) < U32; decide)]
      unfold OrderBook.setLevel
      try dsimp only
      rw [aset_aset]
      unfold OrderBook.removeLevelIfEmpty
      try dsimp only
      rw [alookup_aset_insertAsc hL]
      try dsimp only
      rw [if_pos (show (PriceLevel.mk p 0 0 []).isEmpty = true from rfl)]
      try dsimp only
      rw [aerase_aset_insertAsc hL]
      try dsimp only
      rw [aset, if_pos rfl]
      try dsimp only
      rw [aset_eq_of_alookup_none hfresh, aerase, if_pos rfl]

/-- C7: for every well-formed book and every limit order whose price does
not cross the opposite side's top of book, submitting it and cancelling
the returned identifier leaves the book bit-identical to the pre-state —
same price levels (both sides), same aggregates and order counts (the
levels are compared whole), the same order-index contents and the same
emitted trades; only the session identifier counter has advanced. -/
theorem submit_then_cancel_restores_book (s : OrderBook) (p : Int) (q : Nat)
    (side : Side) (hq : 0 < q) (hq64 : q < U64) (hwf : RoundTripWF s)
    (hnc : doesNotCross s p side = true) :
    ((s.addOrder p q side .limit).2.cancelOrder
        (s.addOrder p q side .limit).1).2 =
      { s with nextOrderId := s.nextOrderId + 1 } := by
  rw [addOrder_limit_noncross s p q side hq hnc]
  dsimp only
  rw [cancelOrder_restLimit s p q side hq hq64 hwf]

/-- C7 witness: on the S1 book (bid 9995×100, ask 10005×100), submitting a
non-crossing buy limit 9990×25 and cancelling the returned identifier
restores the book exactly, with only the counter advanced. -/
theorem submit_then_cancel_witness :
    0 < 25 ∧ RoundTripWF bookS1 ∧ doesNotCross bookS1 9990 .buy = true ∧
    ((bookS1.addOrder 9990 25 .buy .limit).2.cancelOrder
        (bookS1.addOrder 9990 25 .buy .limit).1).2 =
      { bookS1 with nextOrderId := bookS1.nextOrderId + 1 } :=
  ⟨by decide, by decide, by decide,
    submit_then_cancel_restores_book bookS1 9990 25 .buy (by decide)
      (by decide) (by decide) (by decide)⟩

end OrderBookModel
